import Mathlib

/-!
# Verification of bcachefs disk accounting and namespace transactions

Shallow embedding of `libbcachefs/disk_accounting.c`, `libbcachefs/fs-common.c`
and `libbcachefs/fs.c` (the disk-accounting engine, the namespace transaction
layer, and NFS file-handle encoding), together with theorems settling the
specification's claims about them.

Machine integers are modelled as `Nat` with explicit reduction modulo `2^64`
where the C code relies on `u64` wrap-around.
-/

namespace Bcachefs

/-- Modulus of 64-bit machine arithmetic. -/
def U64M : Nat := 2 ^ 64

/-- `u64` wrap-around addition, as performed by C unsigned arithmetic. -/
def uadd (a b : Nat) : Nat := (a + b) % U64M

/-- `u64` wrap-around subtraction `a - b`, as performed by C unsigned
arithmetic (`a + (2^64 - b)` reduced mod `2^64`). -/
def usub (a b : Nat) : Nat := (a + (U64M - b % U64M)) % U64M

/-! ## Accounting key codec (`disk_accounting.c` / `disk_accounting_format.h`)

`struct disk_accounting_pos` is a tagged union overlaid on a `bpos`; the tag
values below follow the `BCH_DISK_ACCOUNTING_TYPES()` x-macro order. Field
widths are abstracted: each scalar field becomes one `Nat` in the serialized
byte list, which preserves exactly the equalities and orderings the claims
are about. -/

/-- `struct bch_replicas_entry_v1`: `data_type`, `nr_devs`, `nr_required`,
then `devs[nr_devs]`. `nr_devs` is represented by `devs.length`. -/
structure bch_replicas_entry_v1 where
  data_type : Nat
  nr_required : Nat
  devs : List Nat
deriving DecidableEq, Repr

/-- `struct disk_accounting_pos`: the tagged accounting position.
`unknown tag` stands for any tag without a case in
`bch2_accounting_validate`'s switch (reserved / future tags): for those the
code leaves `end = &acc_k + 1`, i.e. the whole struct counts as payload. -/
inductive disk_accounting_pos where
  | nr_inodes : disk_accounting_pos
  | persistent_reserved (nr_replicas : Nat) : disk_accounting_pos
  | replicas (e : bch_replicas_entry_v1) : disk_accounting_pos
  | dev_data_type (dev : Nat) (data_type : Nat) : disk_accounting_pos
  | compression (type : Nat) : disk_accounting_pos
  | snapshot (id : Nat) : disk_accounting_pos
  | btree (id : Nat) : disk_accounting_pos
  | rebalance_work : disk_accounting_pos
  | unknown (tag : Nat) : disk_accounting_pos
deriving DecidableEq, Repr

/-- Serialized payload of a replicas entry, in `bch_replicas_entry_v1` field
order. -/
def replicas_entry_bytes (e : bch_replicas_entry_v1) : List Nat :=
  [e.data_type, e.devs.length, e.nr_required] ++ e.devs

/-- `disk_accounting_pos_to_bpos`: the canonical serialization of an
accounting position as a key of the accounting btree (tag byte followed by
the variant payload). -/
def disk_accounting_pos_to_bpos : disk_accounting_pos → List Nat
  | .nr_inodes => [0]
  | .persistent_reserved n => [1, n]
  | .replicas e => 2 :: replicas_entry_bytes e
  | .dev_data_type dev dt => [3, dt, dev]
  | .compression t => [4, t]
  | .snapshot id => [5, id]
  | .btree id => [6, id]
  | .rebalance_work => [7]
  | .unknown tag => [tag]

/-- Modelled from the spec: `bubble_sort(k->replicas.devs, ..., u8_cmp)` from
`util.h` is not part of this excerpt; the spec states the `Replicas` payload
is canonicalized on write by sorting the device list, so the sort is modelled
as an insertion sort over `≤`. -/
def bubble_sort_devs (devs : List Nat) : List Nat :=
  devs.insertionSort (· ≤ ·)

/-- The normalization step at the top of `bch2_disk_accounting_mod`: for the
replicas variant, sort the device list in place. -/
def disk_accounting_mod_normalize : disk_accounting_pos → disk_accounting_pos
  | .replicas e => .replicas { e with devs := bubble_sort_devs e.devs }
  | k => k

/-- `bch2_disk_accounting_mod`, restricted to the key/value it constructs:
normalize the position, then `accounting_key_init` builds an accounting bkey
whose position is the serialized pos and whose value is the delta vector.
(The constructed key is then queued as a write-buffer update; queueing is not
part of the key contents.) -/
def bch2_disk_accounting_mod_key (k : disk_accounting_pos) (d : List Int) :
    List Nat × List Int :=
  (disk_accounting_pos_to_bpos (disk_accounting_mod_normalize k), d)

/-! ## `bch2_accounting_validate` -/

/-- The fsck error codes raised by `bch2_accounting_validate`. -/
inductive accounting_fsck_err where
  | accounting_key_version_0
  | accounting_key_replicas_nr_devs_0
  | accounting_key_replicas_nr_required_bad
  | accounting_key_replicas_devs_unsorted
  | accounting_key_junk_at_end
deriving DecidableEq, Repr

/-- The loop `for (i; i + 1 < nr_devs; i++) err_on(devs[i] >= devs[i+1])`:
true iff the device list is pairwise strictly ascending. -/
def devs_strictly_ascending : List Nat → Bool
  | [] => true
  | [_] => true
  | a :: b :: rest => decide (a < b) && devs_strictly_ascending (b :: rest)

/-- A decoded `KEY_TYPE_accounting` bkey as seen by the validator: version
stamp, decoded position, and the raw bytes lying between the end of the
variant's payload and the end of `struct disk_accounting_pos` (empty for
tags without a case in the switch, where the payload spans the struct). -/
structure accounting_bkey where
  bversion : Nat
  pos : disk_accounting_pos
  junk : List Nat
deriving DecidableEq, Repr

/-- `bch2_accounting_validate`: each `bkey_fsck_err_on` whose condition fires
returns its error immediately (`goto fsck_err`), in source order. -/
def bch2_accounting_validate (k : accounting_bkey) : Except accounting_fsck_err Unit :=
  if k.bversion = 0 then .error .accounting_key_version_0 else
  match k.pos with
  | .replicas e =>
    if e.devs.length = 0 then .error .accounting_key_replicas_nr_devs_0
    else if e.nr_required > e.devs.length ∨
            (e.nr_required > 1 ∧ e.nr_required = e.devs.length) then
      .error .accounting_key_replicas_nr_required_bad
    else if ¬ devs_strictly_ascending e.devs then
      .error .accounting_key_replicas_devs_unsorted
    else if ¬ k.junk.all (· = 0) then .error .accounting_key_junk_at_end
    else .ok ()
  | .unknown _ => .ok ()
  | _ => if ¬ k.junk.all (· = 0) then .error .accounting_key_junk_at_end else .ok ()

/-- The claim's validation rules, stated from the spec's words ("each a hard
reject when violated"); used to compare the code's accept set against the
spec's. For tags unknown to the validator the payload is opaque, so no
padding rule applies. -/
def accounting_validation_rule_violated (k : accounting_bkey) : Bool :=
  decide (k.bversion = 0) ||
  (match k.pos with
   | .replicas e =>
       decide (e.devs.length = 0) ||
       decide (e.nr_required > e.devs.length) ||
       (decide (e.nr_required > 1) && decide (e.nr_required = e.devs.length)) ||
       ! devs_strictly_ascending e.devs
   | _ => false) ||
  (match k.pos with
   | .unknown _ => false
   | _ => ! k.junk.all (· = 0))

/-! ## In-memory counter table (`struct bch_accounting_mem`)

Entries own `v[0]` (live) and optionally `v[1]` (GC shadow) per-CPU counter
vectors; a per-CPU vector is modelled by the `u64` vector of its summed
shards (one `Nat < 2^64` per counter). `eytzinger0_find` over the
Eytzinger-sorted array locates the entry with an exactly matching position,
which is modelled as association-list lookup by position. -/

/-- Internal error taxonomy (`bch_errcode` members used by this excerpt). -/
inductive bch_err where
  | ENOMEM_disk_accounting
  | btree_insert_need_mark_replicas
  | EXDEV
  | ENOTDIR
  | ENOENT_inode_no_backpointer
deriving DecidableEq, Repr

/-- `enum bch_accounting_mode`. -/
inductive bch_accounting_mode where
  | normal
  | gc
  | read
deriving DecidableEq, Repr

/-- `struct accounting_mem_entry`: position, version stamp, counter arity,
live counters `v[0]` and optional GC shadow counters `v[1]`. -/
structure accounting_mem_entry where
  pos : List Nat
  bversion : Nat
  nr_counters : Nat
  v0 : List Nat
  v1 : Option (List Nat)
deriving DecidableEq, Repr

/-- `struct bch_accounting_mem`: the entry array plus the `gc_running` flag. -/
structure bch_accounting_mem where
  k : List accounting_mem_entry
  gc_running : Bool
deriving DecidableEq, Repr

/-- A `KEY_TYPE_accounting` bkey: serialized position, version stamp, and
counter deltas (`u64` bit patterns; `nr_counters` is `counters.length`). -/
structure bkey_accounting where
  pos : List Nat
  bversion : Nat
  counters : List Nat
deriving DecidableEq, Repr

/-- `eytzinger0_find(acc->k.data, ..., accounting_pos_cmp, &pos)`: exact
lookup of the entry at `pos`. -/
def accounting_mem_find (tbl : List accounting_mem_entry) (p : List Nat) :
    Option accounting_mem_entry :=
  tbl.find? (fun e => decide (e.pos = p))

/-- Lexicographic comparison of serialized positions (`accounting_pos_cmp`,
i.e. `bpos_cmp` on the swabbed key): `posLe a b` iff `a ≤ b`. -/
def posLe : List Nat → List Nat → Bool
  | [], _ => true
  | _ :: _, [] => false
  | a :: as, b :: bs => if a < b then true else if b < a then false else posLe as bs

/-- `eytzinger0_sort(acc->k.data, ..., accounting_pos_cmp, NULL)`:
re-establish the sorted (Eytzinger) layout after a structural mutation. -/
def eytzinger0_sort (tbl : List accounting_mem_entry) : List accounting_mem_entry :=
  tbl.insertionSort (fun a b => posLe a.pos b.pos)

/-- `__bch2_accounting_mem_insert`, with allocation outcomes made explicit:
`alloc0`/`alloc1` are the results of the two `__alloc_percpu_gfp` calls and
`push_ok` that of `darray_push`. Returns the function's result together with
the table after the call. -/
def underscore_bch2_accounting_mem_insert (gc_running alloc0 alloc1 push_ok : Bool)
    (tbl : List accounting_mem_entry) (a : bkey_accounting) :
    Except bch_err Unit × List accounting_mem_entry :=
  -- raced with another insert, already present:
  if (accounting_mem_find tbl a.pos).isSome then (.ok (), tbl)
  else if ¬ alloc0 then (.error .ENOMEM_disk_accounting, tbl)
  else if gc_running ∧ ¬ alloc1 then (.error .ENOMEM_disk_accounting, tbl)
  else if ¬ push_ok then (.error .ENOMEM_disk_accounting, tbl)
  else
    let n : accounting_mem_entry :=
      { pos := a.pos
        bversion := a.bversion
        nr_counters := a.counters.length
        v0 := List.replicate a.counters.length 0
        v1 := if gc_running then some (List.replicate a.counters.length 0) else none }
    (.ok (), eytzinger0_sort (tbl ++ [n]))

/-- `accounting_to_replicas` succeeds exactly on positions with the replicas
tag. -/
def accounting_to_replicas_b (p : List Nat) : Bool :=
  match p with
  | 2 :: _ => true
  | _ => false

/-- `bch2_accounting_mem_insert`: the replicas-marked gate, then release
shared / take exclusive `mark_lock`, `__bch2_accounting_mem_insert`,
and downgrade back. `marked` is the superblock replica registry's
`bch2_replicas_marked_locked`. -/
def bch2_accounting_mem_insert (marked : List Nat → Bool)
    (mode : bch_accounting_mode) (gc_running alloc0 alloc1 push_ok : Bool)
    (tbl : List accounting_mem_entry) (a : bkey_accounting) :
    Except bch_err Unit × List accounting_mem_entry :=
  if mode ≠ .read ∧ accounting_to_replicas_b a.pos ∧ ¬ marked a.pos then
    (.error .btree_insert_need_mark_replicas, tbl)
  else
    underscore_bch2_accounting_mem_insert gc_running alloc0 alloc1 push_ok tbl a

/-- Modelled from the spec: `bch2_accounting_mem_read_counters` lives in
`disk_accounting.h` (not part of this excerpt); the spec's
`read(index, n, use_shadow)` sums the per-CPU shards of the live
(`use_shadow = false`) or shadow (`true`) vector. -/
def bch2_accounting_mem_read_counters (e : accounting_mem_entry) (gc : Bool) :
    List Nat :=
  if gc then e.v1.getD (List.replicate e.nr_counters 0) else e.v0

/-- Modelled from the spec: `bch2_accounting_mem_mod_locked` lives in
`disk_accounting.h` (not part of this excerpt); per the spec's commit-time
application it locates or inserts the CTE for the key's position and adds the
key's counter deltas into the live vector (mode `Read` skips the
replica-registration check, so the application is unconditional). -/
def bch2_accounting_mem_mod_read (tbl : List accounting_mem_entry)
    (a : bkey_accounting) : List accounting_mem_entry :=
  if (accounting_mem_find tbl a.pos).isSome then
    tbl.map (fun e =>
      if e.pos = a.pos then { e with v0 := List.zipWith uadd e.v0 a.counters } else e)
  else
    eytzinger0_sort (tbl ++
      [{ pos := a.pos
         bversion := a.bversion
         nr_counters := a.counters.length
         v0 := a.counters
         v1 := none }])

/-! ## GC shadow counters: `bch2_gc_accounting_start` / `bch2_gc_accounting_done` -/

/-- The allocation loop of `bch2_gc_accounting_start`: walk the entries in
order, allocating a zeroed shadow vector `v[1]` for each; `allocOk i` is the
outcome of the `__alloc_percpu_gfp` call for the `i`-th entry. `none` models
the loop breaking at the first failed allocation (after which the caller
frees every shadow vector). -/
def gc_start_alloc (allocOk : Nat → Bool) :
    Nat → List accounting_mem_entry → Option (List accounting_mem_entry)
  | _, [] => some []
  | i, e :: es =>
    if allocOk i then
      match gc_start_alloc allocOk (i + 1) es with
      | some es' => some ({ e with v1 := some (List.replicate e.nr_counters 0) } :: es')
      | none => none
    else none

/-- `bch2_gc_accounting_free_counters(acc, true)`: drop `v[1]` on every
entry. -/
def bch2_accounting_free_counters_gc (tbl : List accounting_mem_entry) :
    List accounting_mem_entry :=
  tbl.map (fun e => { e with v1 := none })

/-- `bch2_gc_accounting_start`: allocate a shadow vector on every entry; on
any allocation failure free all shadow vectors and fail with `ENOMEM`;
finally set `gc_running = !ret`. -/
def bch2_gc_accounting_start (allocOk : Nat → Bool) (acc : bch_accounting_mem) :
    Except bch_err Unit × bch_accounting_mem :=
  match gc_start_alloc allocOk 0 acc.k with
  | some k' => (.ok (), { k := k', gc_running := true })
  | none => (.error .ENOMEM_disk_accounting,
             { k := bch2_accounting_free_counters_gc acc.k, gc_running := false })

/-- `BCH_DISK_ACCOUNTING_TYPE_NR` (the number of tags generated by the
`BCH_DISK_ACCOUNTING_TYPES()` x-macro in this version). -/
def BCH_DISK_ACCOUNTING_TYPE_NR : Nat := 9

/-- `acc_k.type < BCH_DISK_ACCOUNTING_TYPE_NR` on a serialized position. -/
def accounting_pos_known_type (p : List Nat) : Bool :=
  match p with
  | t :: _ => t < BCH_DISK_ACCOUNTING_TYPE_NR
  | [] => false

/-- The per-entry body of `bch2_gc_accounting_done`'s walk: for an entry of
known type, read the live (`dst_v`) and shadow (`src_v`) vectors; on
`memcmp` mismatch compute the corrective deltas `src_v[j] -= dst_v[j]`
(`u64` wrap-around) that the function then emits with
`bch2_disk_accounting_mod(trans, &acc_k, src_v, nr, false)` — the normal,
non-GC update path. `none` means no delta is emitted for this entry. -/
def gc_done_entry_delta (e : accounting_mem_entry) : Option (List Nat) :=
  if accounting_pos_known_type e.pos then
    let dst_v := bch2_accounting_mem_read_counters e false
    let src_v := bch2_accounting_mem_read_counters e true
    if dst_v ≠ src_v then some (List.zipWith usub src_v dst_v) else none
  else none

/-- `bch2_gc_accounting_done`: the walk visits every entry in ascending
position order (via `eytzinger0_find_ge` and `bpos_successor`); with the
table in sorted order this is the list order. Returns the emitted
`(position, corrective delta)` updates, with each mismatch's fsck prompt
answered "fix" (the default for the counter-mismatch class). -/
def bch2_gc_accounting_done_deltas (tbl : List accounting_mem_entry) :
    List (List Nat × List Nat) :=
  tbl.filterMap (fun e => (gc_done_entry_delta e).map (fun d => (e.pos, d)))

/-! ## Startup replay: `bch2_accounting_read`'s journal scan -/

/-- An element of the mount-time `journal_keys` list: btree position
identification (`journal_key_cmp` compares `btree_id`, `level`, position),
the journal sequence tag, whether the bkey is `KEY_TYPE_accounting`, and the
bkey itself. -/
structure journal_key where
  btree_id : Nat
  level : Nat
  journal_seq : Nat
  is_accounting : Bool
  k : bkey_accounting
deriving DecidableEq, Repr

/-- `!journal_key_cmp(i, j)`: same btree, level and position. -/
def journal_key_same_pos (i j : journal_key) : Bool :=
  decide (i.btree_id = j.btree_id) && decide (i.level = j.level) &&
  decide (i.k.pos = j.k.pos)

/-- Modelled from the spec: `bch2_accounting_accumulate` lives in
`disk_accounting.h` (not part of this excerpt); per the spec's merge step it
adds the source key's counters into the destination key (over the
destination's counter arity) and keeps the larger version stamp. -/
def bch2_accounting_accumulate (dst src : bkey_accounting) : bkey_accounting :=
  { dst with
    counters := List.zipWith uadd dst.counters src.counters
    bversion := max dst.bversion src.bversion }

/-- The `applied` test of the journal scan: the in-memory entry at the key's
position exists and its version is `≥` the journal key's version. -/
def journal_key_already_applied (tbl : List accounting_mem_entry)
    (i : journal_key) : Bool :=
  match accounting_mem_find tbl i.k.pos with
  | some e => i.k.bversion ≤ e.bversion
  | none => false

/-- The merge test `i + 1 < darray_top && i[1] is accounting &&
!journal_key_cmp(i, i+1)`. -/
def journal_merge_cond (i : journal_key) : List journal_key → Bool
  | j :: _ => j.is_accounting && journal_key_same_pos i j
  | [] => false

/-- One iteration of the journal scan of `bch2_accounting_read` (the
`darray_for_each(*keys, i)` loop), with the loop's current element `i` held
apart from the not-yet-visited suffix `rest` (the merge step rewrites the
next element in place, so the recursion is structural in `rest`). Each
accounting key is skipped if already applied, merged into an immediately
following key at the same position, or applied to the in-memory table;
`*dst++ = *i` keeps a key in the pending set, so skipped and merged keys are
dropped and every other key — including an applied accounting key — is
kept. Returns the table and the compacted pending set. -/
def accounting_read_journal_go (i : journal_key) (rest : List journal_key)
    (tbl : List accounting_mem_entry) :
    List accounting_mem_entry × List journal_key :=
  if i.is_accounting then
    if journal_key_already_applied tbl i then
      match rest with
      | [] => (tbl, [])
      | j :: rest' => accounting_read_journal_go j rest' tbl
    else if journal_merge_cond i rest then
      match rest with
      | j :: rest' =>
        accounting_read_journal_go
          { j with journal_seq := i.journal_seq
                   k := bch2_accounting_accumulate j.k i.k } rest' tbl
      | [] => (tbl, [])  -- unreachable: journal_merge_cond i [] = false
    else
      let tbl' := bch2_accounting_mem_mod_read tbl i.k
      match rest with
      | [] => (tbl', [i])
      | j :: rest' =>
        let r := accounting_read_journal_go j rest' tbl'
        (r.1, i :: r.2)
  else
    match rest with
    | [] => (tbl, [i])
    | j :: rest' =>
      let r := accounting_read_journal_go j rest' tbl
      (r.1, i :: r.2)

/-- The journal scan of `bch2_accounting_read`, over the whole mount-time
`journal_keys` list. -/
def accounting_read_journal (ks : List journal_key)
    (tbl : List accounting_mem_entry) :
    List accounting_mem_entry × List journal_key :=
  match ks with
  | [] => (tbl, [])
  | i :: rest => accounting_read_journal_go i rest tbl

/-! ## Namespace transactions (`fs-common.c`) -/

/-- `subvol_inum`: the identity of an inode. -/
structure subvol_inum where
  subvol : Nat
  inum : Nat
deriving DecidableEq, Repr

/-- `Inode_opt_nr`: number of inheritable inode options (from `inode.h`'s
x-macro; the exact count does not affect the claims). -/
def Inode_opt_nr : Nat := 8

/-- `struct bch_inode_unpacked`, restricted to the fields this excerpt
reads or writes. Inheritable options are modelled as a vector indexed by
option id (`bch2_inode_opt_get`/`set`), with `bi_fields_set` their
explicitly-set bitmask. -/
structure bch_inode_unpacked where
  bi_inum : Nat
  bi_mode_is_dir : Bool
  bi_subvol : Nat
  bi_parent_subvol : Nat
  bi_dir : Nat
  bi_dir_offset : Nat
  bi_nlink : Nat
  bi_size : Nat
  bi_mtime : Nat
  bi_ctime : Nat
  bi_flags_unlinked : Bool
  bi_fields_set : Nat
  bi_opts : List Nat
  bi_depth : Nat
deriving DecidableEq, Repr

/-- `bch2_inode_opt_get` (by option id). -/
def bch2_inode_opt_get (u : bch_inode_unpacked) (id : Nat) : Nat :=
  u.bi_opts.getD id 0

/-- `bch2_inode_opt_set` (by option id). -/
def bch2_inode_opt_set (u : bch_inode_unpacked) (id v : Nat) : bch_inode_unpacked :=
  { u with bi_opts := u.bi_opts.set id v }

/-- `bch2_reinherit_attrs`: copy every inherited option from `src_u` into
`dst_u` unless explicitly set on `dst_u`; returns the updated inode and
whether anything changed. -/
def bch2_reinherit_attrs (dst_u src_u : bch_inode_unpacked) :
    bch_inode_unpacked × Bool :=
  (List.range Inode_opt_nr).foldl
    (fun acc id =>
      if acc.1.bi_fields_set.testBit id then acc
      else
        let src := bch2_inode_opt_get src_u id
        let dst := bch2_inode_opt_get acc.1 id
        if src = dst then acc
        else (bch2_inode_opt_set acc.1 id src, true))
    (dst_u, false)

/-- Errors surfaced by the namespace transactions in this excerpt. -/
inductive fs_err where
  | EXDEV
  | ENOENT
  | EINVAL
  | EMLINK
  | dirent_create_err
deriving DecidableEq, Repr

/-- `BCH_LINK_MAX`-style cap for the link count (`bi_nlink` is packed into a
bounded field; the exact bound does not affect the claims). -/
def nlink_max : Nat := 2 ^ 31 - 1

/-- Modelled from the spec: `bch2_inode_nlink_inc` lives in `inode.h` (not
part of this excerpt); per the spec, incrementing the link count fails on
overflow or on an unlinked inode. -/
def bch2_inode_nlink_inc (u : bch_inode_unpacked) :
    Except fs_err bch_inode_unpacked :=
  if u.bi_flags_unlinked then .error .EINVAL
  else if nlink_max ≤ u.bi_nlink then .error .EMLINK
  else .ok { u with bi_nlink := u.bi_nlink + 1 }

/-- The collaborators `bch2_link_trans` consults: inode lookup
(`bch2_inode_peek`) and dirent creation (`bch2_dirent_create` with
`STR_HASH_must_create`, yielding the new dirent's offset). -/
structure LinkEnv where
  inode_peek : subvol_inum → Option bch_inode_unpacked
  dirent_create : Except fs_err Nat

/-- The two inode images a successful `bch2_link_trans` writes
(`bch2_inode_write` on the directory and on the target). -/
structure LinkWrites where
  dir_u : bch_inode_unpacked
  inode_u : bch_inode_unpacked
  dirent_offset : Nat
deriving Repr

/-- `bch2_link_trans`: reject cross-subvolume links up front, then peek the
target inode, bump `bi_ctime` and the link count, peek the directory, reject
if attribute reinheritance would change inherited options, update the
directory's times and size (`dirent_occupied_size(name)` is passed in as
`name_occ`, its definition living in `dirent.h`), create the dirent, record
the back-pointer, and write both inodes. An error return aborts the
transaction: nothing is written. -/
def bch2_link_trans (env : LinkEnv) (now : Nat) (dir inum : subvol_inum)
    (name_occ : Nat) : Except fs_err LinkWrites :=
  if dir.subvol ≠ inum.subvol then .error .EXDEV
  else
    match env.inode_peek inum with
    | none => .error .ENOENT
    | some inode_u =>
      let inode_u := { inode_u with bi_ctime := now }
      match bch2_inode_nlink_inc inode_u with
      | .error e => .error e
      | .ok inode_u =>
        match env.inode_peek dir with
        | none => .error .ENOENT
        | some dir_u =>
          let r := bch2_reinherit_attrs inode_u dir_u
          if r.2 then .error .EXDEV
          else
            let inode_u := r.1
            let dir_u := { dir_u with
              bi_mtime := now, bi_ctime := now,
              bi_size := uadd dir_u.bi_size name_occ }
            match env.dirent_create with
            | .error e => .error e
            | .ok dir_offset =>
              .ok { dir_u := dir_u
                    inode_u := { inode_u with
                      bi_dir := dir.inum, bi_dir_offset := dir_offset }
                    dirent_offset := dir_offset }

/-! ## `bch2_rename_trans`: directory size bookkeeping -/

/-- `enum bch_rename_mode`. -/
inductive bch_rename_mode where
  | rename
  | overwrite
  | exchange
deriving DecidableEq, Repr

/-- The `bi_size` cells of the two directories of a rename. When source and
destination directory coincide (`dst_dir.inum == src_dir.inum &&
dst_dir.subvol == src_dir.subvol`), `dst_dir_u` aliases `src_dir_u` and
there is a single cell. -/
structure RenameDirSizes where
  same : Bool
  src : Nat
  dst : Nat
deriving DecidableEq, Repr

/-- `src_dir_u->bi_size -= v` (`u64` arithmetic). -/
def rename_sub_src_size (x : RenameDirSizes) (v : Nat) : RenameDirSizes :=
  { x with src := usub x.src v }

/-- `dst_dir_u->bi_size += v`, writing through the alias when the two
directories coincide. -/
def rename_add_dst_size (x : RenameDirSizes) (v : Nat) : RenameDirSizes :=
  if x.same then { x with src := uadd x.src v } else { x with dst := uadd x.dst v }

/-- The size bookkeeping of `bch2_rename_trans`:

    if (mode == BCH_RENAME) {
        src_dir_u->bi_size -= dirent_occupied_size(src_name);
        dst_dir_u->bi_size += dirent_occupied_size(dst_name);
    }
    if (mode == BCH_RENAME_OVERWRITE)
        src_dir_u->bi_size -= dirent_occupied_size(src_name);

`src_occ`/`dst_occ` are `dirent_occupied_size` of the two names. -/
def bch2_rename_trans_sizes (mode : bch_rename_mode) (x : RenameDirSizes)
    (src_occ dst_occ : Nat) : RenameDirSizes :=
  let x := if mode = .rename then
             rename_add_dst_size (rename_sub_src_size x src_occ) dst_occ
           else x
  let x := if mode = .overwrite then rename_sub_src_size x src_occ else x
  x

/-! ## Path reconstruction: `bch2_inum_to_path` -/

/-- `BCACHEFS_ROOT_SUBVOL`. -/
def BCACHEFS_ROOT_SUBVOL : Nat := 1

/-- `BCACHEFS_ROOT_INO`. -/
def BCACHEFS_ROOT_INO : Nat := 4096

/-- The collaborators the reverse walk consults:
`bch2_inode_find_by_inum_trans`, `bch2_subvolume_get_snapshot`, and the
dirent lookup `bch2_bkey_get_iter_typed(..., BTREE_ID_dirents,
SPOS(bi_dir, bi_dir_offset, snapshot), ..., dirent)` yielding the dirent's
name. -/
structure PathEnv where
  inode_find : subvol_inum → Option bch_inode_unpacked
  subvolume_get_snapshot : Nat → Option Nat
  dirent_name : Nat → Nat → Nat → Option (List Char)

/-- `prt_bytes_reversed(out, b, n)`: append the bytes of `b` in reverse
order. -/
def prt_bytes_reversed (out : List Char) (b : List Char) : List Char :=
  out ++ b.reverse

/-- The literal appended on a broken walk. -/
def disconnected_str : List Char := "(disconnected)".toList

/-- The `while` loop of `bch2_inum_to_path`, accumulating name bytes in
reverse into `buf`. `fuel` bounds the number of iterations (the C loop has
no termination guarantee on a cyclic directory graph); every claim is about
runs that finish within their fuel. Each `goto disconnected` appends
`"(disconnected)"` reversed (`prt_str_reversed`) and stops. -/
def inum_to_path_go (env : PathEnv) : Nat → subvol_inum → List Char → List Char
  | 0, _, buf => buf
  | fuel + 1, inum, buf =>
    if inum.subvol = BCACHEFS_ROOT_SUBVOL ∧ inum.inum = BCACHEFS_ROOT_INO then buf
    else
      match env.inode_find inum with
      | none => prt_bytes_reversed buf disconnected_str
      | some inode =>
        if inode.bi_dir = 0 ∧ inode.bi_dir_offset = 0 then
          -- -BCH_ERR_ENOENT_inode_no_backpointer
          prt_bytes_reversed buf disconnected_str
        else
          let subvol := if inode.bi_parent_subvol ≠ 0 then inode.bi_parent_subvol
                        else inum.subvol
          match env.subvolume_get_snapshot subvol with
          | none => prt_bytes_reversed buf disconnected_str
          | some snapshot =>
            match env.dirent_name inode.bi_dir inode.bi_dir_offset snapshot with
            | none => prt_bytes_reversed buf disconnected_str
            | some name =>
              inum_to_path_go env fuel ⟨subvol, inode.bi_dir⟩
                (prt_bytes_reversed buf name ++ ['/'])

/-- `bch2_inum_to_path`: run the walk from an empty buffer (`orig_pos`), emit
`'/'` if nothing was printed, and reverse the emitted bytes in place before
returning. -/
def bch2_inum_to_path (env : PathEnv) (fuel : Nat) (inum : subvol_inum) :
    List Char :=
  let emitted := inum_to_path_go env fuel inum []
  let emitted := if emitted = [] then ['/'] else emitted
  emitted.reverse

/-! ## NFS file-handle encoding: `bch2_encode_fh` (`fs.c`) -/

/-- `FILEID_BCACHEFS_WITHOUT_PARENT` (type code from the fid namespace; the
exact numeric value is immaterial to the claims, only its distinctness). -/
def FILEID_BCACHEFS_WITHOUT_PARENT : Nat := 0x80

/-- `FILEID_BCACHEFS_WITH_PARENT`. -/
def FILEID_BCACHEFS_WITH_PARENT : Nat := 0x81

/-- `FILEID_INVALID` (from `exportfs.h`). -/
def FILEID_INVALID : Nat := 0xff

/-- `struct bcachefs_fid`: `{inum: u64, subvol: u32, gen: u32}`, 4 `u32`
words when packed. -/
structure bcachefs_fid where
  inum : Nat
  subvol : Nat
  gen : Nat
deriving DecidableEq, Repr

/-- `sizeof(struct bcachefs_fid) / sizeof(u32)`. -/
def bcachefs_fid_u32s : Nat := 4

/-- `sizeof(struct bcachefs_fid_with_parent) / sizeof(u32)`. -/
def bcachefs_fid_with_parent_u32s : Nat := 8

/-- `bcachefs_fid_valid(fh_len, fh_type)`. -/
def bcachefs_fid_valid (fh_len fh_type : Nat) : Bool :=
  if fh_type = FILEID_BCACHEFS_WITHOUT_PARENT then
    decide (fh_len = bcachefs_fid_u32s)
  else if fh_type = FILEID_BCACHEFS_WITH_PARENT then
    decide (fh_len = bcachefs_fid_with_parent_u32s)
  else false

/-- The outcome of `bch2_encode_fh`: the returned type code, the value
stored through `*len` (in `u32` units), and the handle written into the
buffer — child fid plus, for the with-parent variant, the parent fid.
`written = none` models that nothing is stored in the buffer. -/
structure EncodeFhResult where
  ret : Nat
  len : Nat
  written : Option (bcachefs_fid × Option bcachefs_fid)
deriving DecidableEq, Repr

/-- `bch2_encode_fh(vinode, fh, len, vdir)`: a non-directory inode with a
parent gets the with-parent handle, everything else the plain handle; a
buffer shorter than the chosen variant gets the required length stored and
`FILEID_INVALID`, with nothing written. `inode_fid`/`dir_fid` are
`bch2_inode_to_fid` of the child and (when non-NULL) the parent. -/
def bch2_encode_fh (inode_is_dir : Bool) (inode_fid : bcachefs_fid)
    (dir_fid : Option bcachefs_fid) (len : Nat) : EncodeFhResult :=
  if ¬ inode_is_dir ∧ dir_fid.isSome then
    if len < bcachefs_fid_with_parent_u32s then
      { ret := FILEID_INVALID, len := bcachefs_fid_with_parent_u32s, written := none }
    else
      { ret := FILEID_BCACHEFS_WITH_PARENT
        len := bcachefs_fid_with_parent_u32s
        written := some (inode_fid, dir_fid) }
  else
    if len < bcachefs_fid_u32s then
      { ret := FILEID_INVALID, len := bcachefs_fid_u32s, written := none }
    else
      { ret := FILEID_BCACHEFS_WITHOUT_PARENT
        len := bcachefs_fid_u32s
        written := some (inode_fid, none) }

/-- Componentwise mod-`2^64` sum of the counter vectors of a list of journal
keys (`m` counters each): the "d1 + ... + dn" of a run of deltas. -/
def counters_mod_sum (m : Nat) (ks : List journal_key) : List Nat :=
  ks.foldr (fun k acc => List.zipWith uadd k.k.counters acc) (List.replicate m 0)

/-- The running total the merge steps accumulate into the last key of a run:
starting from the current key's counters, successively fold in the next
keys' counters the way `bch2_accounting_accumulate` does. -/
def journal_run_total (acc : List Nat) : List journal_key → List Nat
  | [] => acc
  | j :: rest => journal_run_total (List.zipWith uadd j.k.counters acc) rest

/-! # Theorems -/

theorem usub_lt (a b : Nat) : usub a b < U64M := by
  unfold usub U64M
  exact Nat.mod_lt _ (by norm_num)

/-- Adding back a wrap-around difference recovers the minuend:
`live + (shadow - live) = shadow` modulo `2^64`. -/
theorem uadd_usub_cancel {a b : Nat} (ha : a < U64M) (hb : b < U64M) :
    uadd b (usub a b) = a := by
  unfold uadd usub U64M at *
  have hbm : b % 2 ^ 64 = b := Nat.mod_eq_of_lt hb
  rw [hbm]
  calc (b + (a + (2 ^ 64 - b)) % 2 ^ 64) % 2 ^ 64
      = (b + (a + (2 ^ 64 - b))) % 2 ^ 64 := Nat.ModEq.add_left b (Nat.mod_modEq _ _)
    _ = (a + 2 ^ 64) % 2 ^ 64 := by congr 1; omega
    _ = a := by rw [Nat.add_mod_right]; exact Nat.mod_eq_of_lt ha

/-! ## C3: canonicalization of replicas device lists -/

theorem bubble_sort_devs_perm_eq {d₁ d₂ : List Nat} (h : List.Perm d₁ d₂) :
    bubble_sort_devs d₁ = bubble_sort_devs d₂ := by
  refine List.eq_of_perm_of_sorted (r := (· ≤ ·))
    ((List.perm_insertionSort _ d₁).trans (h.trans (List.perm_insertionSort _ d₂).symm))
    (List.sorted_insertionSort _ d₁) (List.sorted_insertionSort _ d₂)

/-- C3: for any two accounting positions of the `Replicas` variant that are
identical except for the order of their device-id lists, the update path
`bch2_disk_accounting_mod` — which sorts the device list before serializing
— produces byte-identical accounting keys. -/
theorem disk_accounting_mod_canonicalizes
    (e₁ e₂ : bch_replicas_entry_v1) (d : List Int)
    (hdt : e₁.data_type = e₂.data_type)
    (hreq : e₁.nr_required = e₂.nr_required)
    (hperm : List.Perm e₁.devs e₂.devs) :
    bch2_disk_accounting_mod_key (.replicas e₁) d =
      bch2_disk_accounting_mod_key (.replicas e₂) d := by
  have hsort : bubble_sort_devs e₁.devs = bubble_sort_devs e₂.devs :=
    bubble_sort_devs_perm_eq hperm
  simp [bch2_disk_accounting_mod_key, disk_accounting_mod_normalize,
        disk_accounting_pos_to_bpos, replicas_entry_bytes, hdt, hreq, hsort]

/-- C3 witness: `devs = [2, 5]` and `devs = [5, 2]` serialize to the same
key. -/
theorem disk_accounting_mod_canonicalizes_witness :
    bch2_disk_accounting_mod_key (.replicas ⟨1, 1, [2, 5]⟩) [100] =
      bch2_disk_accounting_mod_key (.replicas ⟨1, 1, [5, 2]⟩) [100] :=
  disk_accounting_mod_canonicalizes ⟨1, 1, [2, 5]⟩ ⟨1, 1, [5, 2]⟩ [100]
    rfl rfl (by decide)

/-! ## C4: `bch2_accounting_validate` accepts exactly the rule-satisfying keys -/

/-- C4: `bch2_accounting_validate` rejects an accounting key exactly when
one of the validation rules is violated (version stamp zero; for the
replicas variant `n_devs == 0`, `n_required > n_devs`, `n_required > 1` with
`n_required == n_devs`, or a device list that is not strictly ascending; or
a non-zero padding byte beyond the variant's payload), and accepts every
other key. -/
theorem accounting_validate_iff (k : accounting_bkey) :
    bch2_accounting_validate k = .ok () ↔
      accounting_validation_rule_violated k = false := by
  rcases k with ⟨v, pos, junk⟩
  cases pos <;>
    simp only [bch2_accounting_validate, accounting_validation_rule_violated] <;>
    split_ifs <;>
    simp_all <;>
    first
      | assumption
      | (intros; exfalso; omega)

/-- C4 witness: a well-formed replicas key is accepted. -/
theorem accounting_validate_iff_witness :
    bch2_accounting_validate ⟨7, .replicas ⟨1, 1, [2, 5]⟩, [0, 0]⟩ = .ok () :=
  (accounting_validate_iff ⟨7, .replicas ⟨1, 1, [2, 5]⟩, [0, 0]⟩).mpr (by decide)

/-! ## C7: rename directory-size bookkeeping -/

/-- C7: in a successful rename transaction the directory-size bookkeeping
depends only on the mode: `Rename` subtracts the source name's dirent
occupancy from the source directory and adds the destination name's
occupancy to the destination directory; `RenameOverwrite` subtracts the
source name's occupancy from the source directory only; `Exchange` changes
neither size. When the two directories coincide the single aliased size cell
receives both `Rename` updates. -/
theorem rename_trans_sizes_by_mode (s t so od : Nat) :
    (∀ same, bch2_rename_trans_sizes .exchange ⟨same, s, t⟩ so od = ⟨same, s, t⟩) ∧
    bch2_rename_trans_sizes .rename ⟨false, s, t⟩ so od =
      ⟨false, usub s so, uadd t od⟩ ∧
    bch2_rename_trans_sizes .overwrite ⟨false, s, t⟩ so od =
      ⟨false, usub s so, t⟩ ∧
    bch2_rename_trans_sizes .rename ⟨true, s, t⟩ so od =
      ⟨true, uadd (usub s so) od, t⟩ ∧
    bch2_rename_trans_sizes .overwrite ⟨true, s, t⟩ so od =
      ⟨true, usub s so, t⟩ := by
  refine ⟨fun same => ?_, ?_, ?_, ?_, ?_⟩ <;>
    simp [bch2_rename_trans_sizes, rename_sub_src_size, rename_add_dst_size]

/-- C7 witness: a plain rename between two distinct directories moves one
dirent's occupancy from the source size to the destination size. -/
theorem rename_trans_sizes_by_mode_witness :
    bch2_rename_trans_sizes .rename ⟨false, 100, 200⟩ 32 40 =
      ⟨false, usub 100 32, uadd 200 40⟩ :=
  (rename_trans_sizes_by_mode 100 200 32 40).2.1

/-! ## C9: cross-subvolume link rejection -/

/-- C9: when the directory's subvolume differs from the target inode's
subvolume, `bch2_link_trans` fails with `EXDEV` before touching anything:
the result is the same for every environment (so no inode is read), and an
error return aborts the transaction, so nothing is written. -/
theorem link_trans_cross_subvol (env : LinkEnv) (now : Nat)
    (dir inum : subvol_inum) (occ : Nat)
    (h : dir.subvol ≠ inum.subvol) :
    bch2_link_trans env now dir inum occ = .error .EXDEV ∧
    ∀ env', bch2_link_trans env now dir inum occ =
              bch2_link_trans env' now dir inum occ := by
  refine ⟨?_, fun env' => ?_⟩ <;> simp [bch2_link_trans, h]

/-- C9 witness: a link from `(S1, I1)` to a target in `S2 ≠ S1` is rejected
with `EXDEV`. -/
theorem link_trans_cross_subvol_witness :
    bch2_link_trans ⟨fun _ => none, .error .dirent_create_err⟩ 0
      ⟨1, 10⟩ ⟨2, 20⟩ 32 = .error .EXDEV :=
  (link_trans_cross_subvol ⟨fun _ => none, .error .dirent_create_err⟩ 0
      ⟨1, 10⟩ ⟨2, 20⟩ 32 (by decide)).1

/-! ## C10: file-handle encoding -/

/-- C10: `bch2_encode_fh` emits the without-parent handle for every
directory inode — even when a parent is supplied; the with-parent variant is
emitted only for a non-directory inode with a parent; and when the caller's
buffer is shorter than the chosen variant the required length is stored and
`FILEID_INVALID` is returned with nothing written. Any emitted handle
validates against `bcachefs_fid_valid`. -/
theorem encode_fh_spec (fid pf : bcachefs_fid) (dirf : Option bcachefs_fid)
    (len : Nat) :
    (bcachefs_fid_u32s ≤ len →
      bch2_encode_fh true fid dirf len =
        ⟨FILEID_BCACHEFS_WITHOUT_PARENT, bcachefs_fid_u32s, some (fid, none)⟩) ∧
    (len < bcachefs_fid_u32s →
      bch2_encode_fh true fid dirf len =
        ⟨FILEID_INVALID, bcachefs_fid_u32s, none⟩) ∧
    (∀ isdir : Bool,
      (bch2_encode_fh isdir fid dirf len).ret = FILEID_BCACHEFS_WITH_PARENT →
      isdir = false ∧ dirf.isSome) ∧
    (bcachefs_fid_with_parent_u32s ≤ len →
      bch2_encode_fh false fid (some pf) len =
        ⟨FILEID_BCACHEFS_WITH_PARENT, bcachefs_fid_with_parent_u32s,
         some (fid, some pf)⟩) ∧
    (len < bcachefs_fid_with_parent_u32s →
      bch2_encode_fh false fid (some pf) len =
        ⟨FILEID_INVALID, bcachefs_fid_with_parent_u32s, none⟩) ∧
    (∀ isdir : Bool,
      (bch2_encode_fh isdir fid dirf len).ret ≠ FILEID_INVALID →
      bcachefs_fid_valid (bch2_encode_fh isdir fid dirf len).len
        (bch2_encode_fh isdir fid dirf len).ret = true) := by
  refine ⟨fun h => ?_, fun h => ?_, fun isdir h => ?_, fun h => ?_,
          fun h => ?_, fun isdir h => ?_⟩
  · simp [bch2_encode_fh, Nat.not_lt.mpr h]
  · simp [bch2_encode_fh, h]
  · cases isdir <;> revert h <;>
      simp only [bch2_encode_fh] <;> split_ifs <;>
      simp_all [FILEID_BCACHEFS_WITH_PARENT, FILEID_INVALID,
                FILEID_BCACHEFS_WITHOUT_PARENT]
  · simp [bch2_encode_fh, Nat.not_lt.mpr h]
  · simp [bch2_encode_fh, h]
  · cases isdir <;> revert h <;>
      simp only [bch2_encode_fh] <;> split_ifs <;>
      simp_all [bcachefs_fid_valid, FILEID_BCACHEFS_WITH_PARENT, FILEID_INVALID,
                FILEID_BCACHEFS_WITHOUT_PARENT, bcachefs_fid_u32s,
                bcachefs_fid_with_parent_u32s]

/-- C10 witness: a directory inode with a parent supplied and an 8-word
buffer still gets the without-parent handle. -/
theorem encode_fh_spec_witness :
    bch2_encode_fh true ⟨11, 1, 3⟩ (some ⟨4096, 1, 0⟩) 8 =
      ⟨FILEID_BCACHEFS_WITHOUT_PARENT, bcachefs_fid_u32s,
       some (⟨11, 1, 3⟩, none)⟩ :=
  (encode_fh_spec ⟨11, 1, 3⟩ ⟨4096, 1, 0⟩ (some ⟨4096, 1, 0⟩) 8).1 (by decide)

/-! ## C2: GC corrective deltas -/

theorem zipWith_uadd_usub {xs ys : List Nat} (hlen : ys.length = xs.length)
    (hx : ∀ a ∈ xs, a < U64M) (hy : ∀ a ∈ ys, a < U64M) :
    List.zipWith uadd ys (List.zipWith usub xs ys) = xs := by
  induction xs generalizing ys with
  | nil => cases ys <;> simp_all
  | cons x xs ih =>
    cases ys with
    | nil => simp at hlen
    | cons y ys =>
      simp only [List.zipWith_cons_cons]
      rw [uadd_usub_cancel (hx x (by simp)) (hy y (by simp)),
          ih (by simpa using hlen) (fun a ha => hx a (by simp [ha]))
             (fun a ha => hy a (by simp [ha]))]

/-- C2: at `gc_done`, an entry of known accounting type whose live counter
vector differs from its shadow vector gets a corrective delta of
`shadow − live` componentwise (u64 wrap-around), emitted through
`bch2_disk_accounting_mod`'s normal (non-GC) path, and live plus the delta
equals shadow; an entry whose vectors agree gets no delta. -/
theorem gc_accounting_done_corrective (tbl : List accounting_mem_entry)
    (e : accounting_mem_entry) (s : List Nat)
    (he : e ∈ tbl)
    (hknown : accounting_pos_known_type e.pos = true)
    (hshadow : e.v1 = some s)
    (hlen : e.v0.length = s.length)
    (hv0 : ∀ a ∈ e.v0, a < U64M) (hs : ∀ a ∈ s, a < U64M) :
    (gc_done_entry_delta e = none ↔ e.v0 = s) ∧
    (∀ d, gc_done_entry_delta e = some d →
      d = List.zipWith usub s e.v0 ∧
      List.zipWith uadd e.v0 d = s ∧
      (e.pos, d) ∈ bch2_gc_accounting_done_deltas tbl) := by
  have hdelta : gc_done_entry_delta e =
      if e.v0 = s then none else some (List.zipWith usub s e.v0) := by
    simp only [gc_done_entry_delta, hknown, if_true,
               bch2_accounting_mem_read_counters, hshadow, Option.getD_some]
    by_cases hvs : e.v0 = s <;> simp [hvs]
  by_cases hvs : e.v0 = s
  · rw [hdelta, if_pos hvs]
    exact ⟨by simp [hvs], by simp⟩
  · rw [hdelta, if_neg hvs]
    refine ⟨by simp [hvs], fun d hd => ?_⟩
    obtain rfl : List.zipWith usub s e.v0 = d := by simpa using hd
    refine ⟨rfl, zipWith_uadd_usub hlen hs hv0, ?_⟩
    exact List.mem_filterMap.mpr ⟨e, he, by rw [hdelta, if_neg hvs]; rfl⟩

/-- C2 witness: live `105` vs shadow `100` emits `-5` (as the u64 pattern
`2^64 - 5`) and applying it lands on `100`. -/
theorem gc_accounting_done_corrective_witness :
    List.zipWith uadd [105] [18446744073709551611] = [100] :=
  ((gc_accounting_done_corrective [⟨[2], 7, 1, [105], some [100]⟩]
      ⟨[2], 7, 1, [105], some [100]⟩ [100] (by simp) (by decide) rfl rfl
      (by decide) (by decide)).2 [18446744073709551611] (by decide)).2.1

/-! ## C5: duplicate insert is idempotent -/

/-- C5: inserting a key whose position is already present in the in-memory
counter table — in particular the second of two racing inserts, which
re-checks by `eytzinger0_find` after upgrading `mark_lock` — succeeds and
leaves the table unchanged: `__bch2_accounting_mem_insert` returns 0 without
touching the table, the wrapping `bch2_accounting_mem_insert` never mutates
the table for such a key, and it returns success whenever the
replicas-marked gate does not fire first. -/
theorem accounting_mem_insert_idempotent (marked : List Nat → Bool)
    (mode : bch_accounting_mode) (gc alloc0 alloc1 push2 : Bool)
    (tbl : List accounting_mem_entry) (a : bkey_accounting)
    (hfound : (accounting_mem_find tbl a.pos).isSome = true) :
    underscore_bch2_accounting_mem_insert gc alloc0 alloc1 push2 tbl a =
      (.ok (), tbl) ∧
    (bch2_accounting_mem_insert marked mode gc alloc0 alloc1 push2 tbl a).2 =
      tbl ∧
    ((mode = .read ∨ accounting_to_replicas_b a.pos = false ∨
        marked a.pos = true) →
      bch2_accounting_mem_insert marked mode gc alloc0 alloc1 push2 tbl a =
        (.ok (), tbl)) := by
  have h1 : underscore_bch2_accounting_mem_insert gc alloc0 alloc1 push2 tbl a =
      (.ok (), tbl) := by
    simp [underscore_bch2_accounting_mem_insert, hfound]
  refine ⟨h1, ?_, ?_⟩
  · unfold bch2_accounting_mem_insert
    split_ifs with hg
    · rfl
    · rw [h1]
  · intro hm
    unfold bch2_accounting_mem_insert
    split_ifs with hg
    · exfalso
      rcases hm with hm | hm | hm
      · exact hg.1 hm
      · rw [hm] at hg; exact Bool.false_ne_true hg.2.1
      · exact hg.2.2 hm
    · exact h1

/-- C5 witness: re-inserting the key of an existing entry in `read` mode
returns success and leaves the singleton table as it was. -/
theorem accounting_mem_insert_idempotent_witness :
    bch2_accounting_mem_insert (fun _ => false) .read true true true true
      [⟨[2, 9], 3, 1, [42], none⟩] ⟨[2, 9], 5, [7]⟩ =
      (.ok (), [⟨[2, 9], 3, 1, [42], none⟩]) :=
  (accounting_mem_insert_idempotent (fun _ => false) .read true true true true
      [⟨[2, 9], 3, 1, [42], none⟩] ⟨[2, 9], 5, [7]⟩ (by decide)).2.2
    (Or.inl rfl)

/-! ## C6: `bch2_gc_accounting_start` is all-or-nothing -/

theorem gc_start_alloc_shadow (allocOk : Nat → Bool) :
    ∀ (es : List accounting_mem_entry) (i : Nat)
      (es' : List accounting_mem_entry),
      gc_start_alloc allocOk i es = some es' → ∀ e ∈ es', e.v1.isSome := by
  intro es
  induction es with
  | nil =>
    intro i es' h
    simp only [gc_start_alloc, Option.some.injEq] at h
    simp [← h]
  | cons e es ih =>
    intro i es' h
    simp only [gc_start_alloc] at h
    split_ifs at h
    cases hrec : gc_start_alloc allocOk (i + 1) es with
    | none => rw [hrec] at h; exact absurd h (by simp)
    | some es'' =>
      rw [hrec] at h
      simp only [Option.some.injEq] at h
      subst h
      intro x hx
      rcases List.mem_cons.mp hx with rfl | hx
      · simp
      · exact ih (i + 1) es'' hrec x hx

theorem gc_start_alloc_none_iff (allocOk : Nat → Bool) :
    ∀ (es : List accounting_mem_entry) (i : Nat),
      gc_start_alloc allocOk i es = none ↔
        ∃ j, j < es.length ∧ allocOk (i + j) = false := by
  intro es
  induction es with
  | nil => intro i; simp [gc_start_alloc]
  | cons e es ih =>
    intro i
    simp only [gc_start_alloc]
    by_cases ha : allocOk i
    · rw [if_pos ha]
      cases hrec : gc_start_alloc allocOk (i + 1) es with
      | none =>
        simp only [ih] at hrec
        obtain ⟨j, hj, hja⟩ := hrec
        simp only [List.length_cons, true_iff]
        exact ⟨j + 1, by omega, by rw [show i + (j + 1) = i + 1 + j by omega]; exact hja⟩
      | some es'' =>
        simp only [List.length_cons]
        constructor
        · intro h; exact absurd h (by simp)
        · rintro ⟨j, hj, hja⟩
          exfalso
          cases j with
          | zero => rw [Nat.add_zero] at hja; rw [hja] at ha; exact Bool.false_ne_true ha
          | succ j =>
            have : gc_start_alloc allocOk (i + 1) es = none := by
              rw [ih]
              exact ⟨j, by omega, by rw [show i + 1 + j = i + (j + 1) by omega]; exact hja⟩
            rw [this] at hrec
            exact absurd hrec (by simp)
    · rw [if_neg ha]
      simp only [List.length_cons, true_iff]
      exact ⟨0, by omega, by simpa using Bool.of_not_eq_true ha⟩

/-- C6: `bch2_gc_accounting_start` either succeeds with a shadow vector on
every entry and `gc_running` set, or — when any per-entry allocation
fails — returns `ENOMEM` with no entry holding a shadow vector and
`gc_running` false; in every outcome shadow vectors are present on all
entries or on none, and success happens exactly when every allocation
succeeds. -/
theorem gc_accounting_start_all_or_nothing (allocOk : Nat → Bool)
    (acc : bch_accounting_mem) :
    ((bch2_gc_accounting_start allocOk acc).1 = .ok () →
       (bch2_gc_accounting_start allocOk acc).2.gc_running = true ∧
       ∀ e ∈ (bch2_gc_accounting_start allocOk acc).2.k, e.v1.isSome) ∧
    ((bch2_gc_accounting_start allocOk acc).1 ≠ .ok () →
       (bch2_gc_accounting_start allocOk acc).1 =
         .error .ENOMEM_disk_accounting ∧
       (bch2_gc_accounting_start allocOk acc).2.gc_running = false ∧
       ∀ e ∈ (bch2_gc_accounting_start allocOk acc).2.k, e.v1 = none) ∧
    ((∀ e ∈ (bch2_gc_accounting_start allocOk acc).2.k, e.v1.isSome) ∨
     (∀ e ∈ (bch2_gc_accounting_start allocOk acc).2.k, e.v1 = none)) ∧
    ((bch2_gc_accounting_start allocOk acc).1 = .ok () ↔
       ∀ j < acc.k.length, allocOk j = true) := by
  cases hg : gc_start_alloc allocOk 0 acc.k with
  | some k' =>
    have hall := gc_start_alloc_shadow allocOk acc.k 0 k' hg
    have hne : ¬ ∃ j, j < acc.k.length ∧ allocOk (0 + j) = false := by
      rw [← gc_start_alloc_none_iff, hg]; simp
    refine ⟨fun _ => ⟨?_, ?_⟩, fun h => absurd ?_ h, Or.inl ?_, ?_⟩ <;>
      simp_all [bch2_gc_accounting_start, hg]
  | none =>
    have hex : ∃ j, j < acc.k.length ∧ allocOk (0 + j) = false := by
      rw [← gc_start_alloc_none_iff, hg]
    refine ⟨?_, fun _ => ⟨?_, ?_, ?_⟩, Or.inr ?_, ?_⟩ <;>
      simp_all [bch2_gc_accounting_start, hg, bch2_accounting_free_counters_gc]

/-- C6 witness: with every allocation succeeding, both entries of a
two-entry table get a shadow vector and `gc_running` is set. -/
theorem gc_accounting_start_all_or_nothing_witness :
    (bch2_gc_accounting_start (fun _ => true)
        ⟨[⟨[2], 1, 1, [5], none⟩, ⟨[3], 1, 3, [0, 0, 0], none⟩], false⟩).2.gc_running
      = true ∧
    ∀ e ∈ (bch2_gc_accounting_start (fun _ => true)
        ⟨[⟨[2], 1, 1, [5], none⟩, ⟨[3], 1, 3, [0, 0, 0], none⟩], false⟩).2.k,
      e.v1.isSome :=
  (gc_accounting_start_all_or_nothing (fun _ => true)
      ⟨[⟨[2], 1, 1, [5], none⟩, ⟨[3], 1, 3, [0, 0, 0], none⟩], false⟩).1
    rfl

/-! ## C8: path reconstruction -/

/-- C8: the reverse path walk terminates upon reaching the filesystem root
`(ROOT_SUBVOL, ROOT_INO)`; whenever a visited inode cannot be found, has no
back-pointer, or its back-pointer dirent cannot be read (snapshot or dirent
lookup fails), the literal `"(disconnected)"` is appended (in reverse, like
all emitted bytes) and the walk stops; names are emitted reversed during the
walk; and `bch2_inum_to_path` reverses the emitted buffer in place before
returning — so a walk that disconnects immediately returns the literal
`"(disconnected)"` itself. -/
theorem inum_to_path_spec (env : PathEnv) (fuel : Nat) (inum : subvol_inum)
    (buf : List Char)
    (hroot : ¬ (inum.subvol = BCACHEFS_ROOT_SUBVOL ∧
                inum.inum = BCACHEFS_ROOT_INO)) :
    (inum_to_path_go env (fuel + 1)
        ⟨BCACHEFS_ROOT_SUBVOL, BCACHEFS_ROOT_INO⟩ buf = buf) ∧
    (env.inode_find inum = none →
      inum_to_path_go env (fuel + 1) inum buf =
        buf ++ disconnected_str.reverse) ∧
    (∀ inode, env.inode_find inum = some inode →
      inode.bi_dir = 0 ∧ inode.bi_dir_offset = 0 →
      inum_to_path_go env (fuel + 1) inum buf =
        buf ++ disconnected_str.reverse) ∧
    (∀ inode, env.inode_find inum = some inode →
      ¬ (inode.bi_dir = 0 ∧ inode.bi_dir_offset = 0) →
      env.subvolume_get_snapshot
        (if inode.bi_parent_subvol ≠ 0 then inode.bi_parent_subvol
         else inum.subvol) = none →
      inum_to_path_go env (fuel + 1) inum buf =
        buf ++ disconnected_str.reverse) ∧
    (∀ inode snap, env.inode_find inum = some inode →
      ¬ (inode.bi_dir = 0 ∧ inode.bi_dir_offset = 0) →
      env.subvolume_get_snapshot
        (if inode.bi_parent_subvol ≠ 0 then inode.bi_parent_subvol
         else inum.subvol) = some snap →
      env.dirent_name inode.bi_dir inode.bi_dir_offset snap = none →
      inum_to_path_go env (fuel + 1) inum buf =
        buf ++ disconnected_str.reverse) ∧
    (∀ inode snap name, env.inode_find inum = some inode →
      ¬ (inode.bi_dir = 0 ∧ inode.bi_dir_offset = 0) →
      env.subvolume_get_snapshot
        (if inode.bi_parent_subvol ≠ 0 then inode.bi_parent_subvol
         else inum.subvol) = some snap →
      env.dirent_name inode.bi_dir inode.bi_dir_offset snap = some name →
      inum_to_path_go env (fuel + 1) inum buf =
        inum_to_path_go env fuel
          ⟨(if inode.bi_parent_subvol ≠ 0 then inode.bi_parent_subvol
            else inum.subvol), inode.bi_dir⟩
          (buf ++ name.reverse ++ ['/'])) ∧
    (bch2_inum_to_path env fuel inum =
      (if inum_to_path_go env fuel inum [] = [] then ['/']
       else inum_to_path_go env fuel inum []).reverse) ∧
    (env.inode_find inum = none →
      bch2_inum_to_path env (fuel + 1) inum = disconnected_str) := by
  have hdisc : disconnected_str.reverse ≠ [] := by decide
  refine ⟨?_, ?_, ?_, ?_, ?_, ?_, rfl, ?_⟩
  · simp [inum_to_path_go, BCACHEFS_ROOT_SUBVOL, BCACHEFS_ROOT_INO]
  · intro hf
    simp [inum_to_path_go, hroot, hf, prt_bytes_reversed]
  · intro inode hf hbp
    simp [inum_to_path_go, hroot, hf, hbp, prt_bytes_reversed]
  · intro inode hf hbp hsnap
    simp only [inum_to_path_go, if_neg hroot, hf, if_neg hbp, hsnap,
               prt_bytes_reversed]
  · intro inode snap hf hbp hsnap hd
    simp only [inum_to_path_go, if_neg hroot, hf, if_neg hbp, hsnap, hd,
               prt_bytes_reversed]
  · intro inode snap name hf hbp hsnap hd
    simp only [inum_to_path_go, if_neg hroot, hf, if_neg hbp, hsnap, hd,
               prt_bytes_reversed]
  · intro hf
    have hgo : inum_to_path_go env (fuel + 1) inum [] =
        [] ++ disconnected_str.reverse := by
      simp [inum_to_path_go, hroot, hf, prt_bytes_reversed]
    simp only [bch2_inum_to_path, hgo, List.nil_append, if_neg hdisc,
               List.reverse_reverse]

/-- C8 witness: a walk whose very first inode lookup fails returns the
literal `"(disconnected)"`. -/
theorem inum_to_path_spec_witness :
    bch2_inum_to_path ⟨fun _ => none, fun _ => none, fun _ _ _ => none⟩ 1
      ⟨2, 5⟩ = disconnected_str :=
  (inum_to_path_spec ⟨fun _ => none, fun _ => none, fun _ _ _ => none⟩ 0
      ⟨2, 5⟩ [] (by decide)).2.2.2.2.2.2.2 rfl

/-! ## C1: the journal scan of `bch2_accounting_read` -/

theorem find_eq_of_unique {α : Type} (q : α → Bool) (l : List α) (e : α)
    (he : e ∈ l) (hq : q e = true) (huniq : ∀ x ∈ l, q x = true → x = e) :
    l.find? q = some e := by
  induction l with
  | nil => cases he
  | cons a l ih =>
    by_cases hqa : q a = true
    · rw [List.find?_cons_of_pos _ hqa, huniq a (by simp) hqa]
    · rw [List.find?_cons_of_neg _ (by simpa using hqa)]
      rcases List.mem_cons.mp he with rfl | he'
      · exact absurd hq hqa
      · exact ih he' (fun x hx hqx => huniq x (by simp [hx]) hqx)

/-- Applying an accounting key to the table at an absent position inserts a
fresh entry carrying exactly the key's counters. -/
theorem accounting_mem_mod_read_find_absent (tbl : List accounting_mem_entry)
    (a : bkey_accounting)
    (habsent : accounting_mem_find tbl a.pos = none) :
    accounting_mem_find (bch2_accounting_mem_mod_read tbl a) a.pos =
      some ⟨a.pos, a.bversion, a.counters.length, a.counters, none⟩ := by
  have hnotmem : ∀ x ∈ tbl, ¬ x.pos = a.pos := by
    intro x hx
    have := List.find?_eq_none.mp habsent x hx
    simpa using this
  have hfind : (accounting_mem_find tbl a.pos).isSome = false := by
    rw [habsent]; rfl
  unfold bch2_accounting_mem_mod_read
  rw [hfind]
  simp only [Bool.false_eq_true, if_false]
  apply find_eq_of_unique
  · exact (List.Perm.mem_iff (List.perm_insertionSort _ _)).mpr (by simp)
  · simp
  · intro x hx hqx
    have hx' : x ∈ tbl ++ [(⟨a.pos, a.bversion, a.counters.length,
        a.counters, none⟩ : accounting_mem_entry)] :=
      (List.Perm.mem_iff (List.perm_insertionSort _ _)).mp hx
    rcases List.mem_append.mp hx' with hmem | hmem
    · exact absurd (by simpa using hqx) (hnotmem x hmem)
    · simpa using hmem

theorem uadd_mod_absorb (a x : Nat) :
    (a + x % U64M) % U64M = (a + x) % U64M :=
  Nat.ModEq.add_left a (Nat.mod_modEq _ _)

theorem uadd_left_comm (a b c : Nat) :
    uadd a (uadd b c) = uadd b (uadd a c) := by
  unfold uadd
  rw [uadd_mod_absorb, uadd_mod_absorb, Nat.add_left_comm]

theorem zipWith_uadd_left_comm (a b c : List Nat) :
    List.zipWith uadd a (List.zipWith uadd b c) =
      List.zipWith uadd b (List.zipWith uadd a c) := by
  induction a generalizing b c with
  | nil => cases b <;> cases c <;> simp
  | cons x a ih =>
    cases b with
    | nil => simp
    | cons y b =>
      cases c with
      | nil => simp
      | cons z c => simp [uadd_left_comm, ih]

theorem zipWith_uadd_replicate_zero (c : List Nat)
    (hc : ∀ x ∈ c, x < U64M) :
    List.zipWith uadd c (List.replicate c.length 0) = c := by
  induction c with
  | nil => rfl
  | cons x c ih =>
    simp only [List.length_cons, List.replicate_succ, List.zipWith_cons_cons]
    rw [show uadd x 0 = x from by
          unfold uadd; rw [Nat.add_zero]; exact Nat.mod_eq_of_lt (hc x (by simp)),
        ih (fun y hy => hc y (by simp [hy]))]

theorem foldr_zipWith_uadd_pull (rest : List journal_key) (c acc : List Nat) :
    rest.foldr (fun k a => List.zipWith uadd k.k.counters a)
        (List.zipWith uadd c acc) =
      List.zipWith uadd c
        (rest.foldr (fun k a => List.zipWith uadd k.k.counters a) acc) := by
  induction rest with
  | nil => rfl
  | cons j r ih => simp only [List.foldr_cons, ih, zipWith_uadd_left_comm]

theorem journal_run_total_eq_foldr (rest : List journal_key) :
    ∀ acc, journal_run_total acc rest =
      rest.foldr (fun k a => List.zipWith uadd k.k.counters a) acc := by
  induction rest with
  | nil => intro acc; rfl
  | cons j r ih =>
    intro acc
    rw [journal_run_total, ih, foldr_zipWith_uadd_pull]
    rfl

/-- The running total a run of merges accumulates equals the componentwise
mod-`2^64` sum of the whole run's deltas. -/
theorem journal_run_total_eq_sum (m : Nat) (i : journal_key)
    (rest : List journal_key)
    (hlen : i.k.counters.length = m)
    (hbound : ∀ x ∈ i.k.counters, x < U64M) :
    journal_run_total i.k.counters rest = counters_mod_sum m (i :: rest) := by
  rw [journal_run_total_eq_foldr]
  calc rest.foldr (fun k a => List.zipWith uadd k.k.counters a) i.k.counters
      = rest.foldr (fun k a => List.zipWith uadd k.k.counters a)
          (List.zipWith uadd i.k.counters (List.replicate m 0)) := by
        have hz : List.zipWith uadd i.k.counters (List.replicate m 0) =
            i.k.counters := by
          rw [← hlen]
          exact zipWith_uadd_replicate_zero i.k.counters hbound
        rw [hz]
    _ = List.zipWith uadd i.k.counters
          (rest.foldr (fun k a => List.zipWith uadd k.k.counters a)
            (List.replicate m 0)) := foldr_zipWith_uadd_pull rest _ _
    _ = counters_mod_sum m (i :: rest) := rfl

/-- A run of same-position accounting keys collapses: the merges fold every
delta into the last key, which is then applied once and kept pending. -/
theorem accounting_read_go_run (b l : Nat) (p : List Nat)
    (tbl : List accounting_mem_entry)
    (habsent : accounting_mem_find tbl p = none) :
    ∀ (rest : List journal_key) (i : journal_key),
      i.is_accounting = true → i.btree_id = b → i.level = l → i.k.pos = p →
      (∀ k ∈ rest, k.is_accounting = true ∧ k.btree_id = b ∧ k.level = l ∧
        k.k.pos = p) →
      (∃ e, accounting_mem_find (accounting_read_journal_go i rest tbl).1 p =
          some e ∧
        e.v0 = journal_run_total i.k.counters rest) ∧
      ∃ kf, (accounting_read_journal_go i rest tbl).2 = [kf] ∧ kf.k.pos = p := by
  intro rest
  induction rest with
  | nil =>
    intro i hacc hb hl hp _
    have happ : journal_key_already_applied tbl i = false := by
      unfold journal_key_already_applied
      rw [hp, habsent]
    unfold accounting_read_journal_go
    rw [hacc, happ]
    simp only [Bool.false_eq_true, if_false, if_true, journal_merge_cond]
    have := accounting_mem_mod_read_find_absent tbl i.k (hp ▸ habsent)
    rw [hp] at this
    exact ⟨⟨_, this, rfl⟩, i, rfl, hp⟩
  | cons j rest' ih =>
    intro i hacc hb hl hp hrun
    obtain ⟨hjacc, hjb, hjl, hjp⟩ := hrun j (by simp)
    have happ : journal_key_already_applied tbl i = false := by
      unfold journal_key_already_applied
      rw [hp, habsent]
    have hmerge : journal_merge_cond i (j :: rest') = true := by
      simp [journal_merge_cond, journal_key_same_pos, hjacc, hb, hl, hp,
            hjb, hjl, hjp]
    unfold accounting_read_journal_go
    rw [hacc, happ]
    simp only [Bool.false_eq_true, if_false, if_true, hmerge]
    have hres := ih { j with journal_seq := i.journal_seq,
                             k := bch2_accounting_accumulate j.k i.k }
      hjacc hjb hjl hjp
      (fun k hk => hrun k (by simp [hk]))
    rw [show (bch2_accounting_accumulate j.k i.k).counters =
          List.zipWith uadd j.k.counters i.k.counters from rfl] at hres
    exact hres

/-- C1 (amended): in the journal scan of `bch2_accounting_read`, an
accounting key whose in-memory entry exists with version `≥` the key's
version is skipped and contributes nothing; a run of `n` same-position
accounting keys (none pre-applied) is collapsed by accumulating each key
into the following one, so that after the scan the in-memory entry's
counter value equals the componentwise sum `d1 + ... + dn`; `n - 1` of the
keys are dropped from the pending set while the final key of the run — now
carrying the accumulated sum — remains pending. -/
theorem accounting_read_journal_spec :
    (∀ (tbl : List accounting_mem_entry) (i : journal_key)
       (rest : List journal_key),
       i.is_accounting = true → journal_key_already_applied tbl i = true →
       accounting_read_journal (i :: rest) tbl =
         accounting_read_journal rest tbl) ∧
    (∀ (b l : Nat) (p : List Nat) (m : Nat)
       (tbl : List accounting_mem_entry) (ks : List journal_key),
       ks ≠ [] →
       (∀ k ∈ ks, k.is_accounting = true ∧ k.btree_id = b ∧ k.level = l ∧
         k.k.pos = p ∧ k.k.counters.length = m ∧
         ∀ c ∈ k.k.counters, c < U64M) →
       accounting_mem_find tbl p = none →
       (∃ e, accounting_mem_find (accounting_read_journal ks tbl).1 p =
           some e ∧ e.v0 = counters_mod_sum m ks) ∧
       ∃ kf, (accounting_read_journal ks tbl).2 = [kf] ∧ kf.k.pos = p) := by
  constructor
  · intro tbl i rest hacc happ
    cases rest with
    | nil =>
      show accounting_read_journal_go i [] tbl = _
      unfold accounting_read_journal_go
      rw [hacc, happ]
      rfl
    | cons j rest' =>
      show accounting_read_journal_go i (j :: rest') tbl = _
      unfold accounting_read_journal_go
      rw [hacc, happ]
      rfl
  · intro b l p m tbl ks hne hrun habsent
    cases ks with
    | nil => exact absurd rfl hne
    | cons i rest =>
      obtain ⟨hacc, hb, hl, hp, hm, hbd⟩ := hrun i (by simp)
      have h := accounting_read_go_run b l p tbl habsent rest i hacc hb hl hp
        (fun k hk => ⟨(hrun k (by simp [hk])).1, (hrun k (by simp [hk])).2.1,
          (hrun k (by simp [hk])).2.2.1, (hrun k (by simp [hk])).2.2.2.1⟩)
      obtain ⟨⟨e, hfind, hv⟩, hpend⟩ := h
      refine ⟨⟨e, hfind, ?_⟩, hpend⟩
      rw [hv, journal_run_total_eq_sum m i rest hm hbd]

/-- C1 counterexample: three accounting keys with the same position and
deltas `+10, +20, +30`, none pre-applied, on an empty table. The claim says
all three are removed from the pending set, but the scan keeps the final key
of the run (carrying the accumulated `60`): the pending set is not empty. -/
theorem accounting_read_journal_counterexample :
    (accounting_read_journal
      [⟨0, 0, 1, true, ⟨[2, 1], 1, [10]⟩⟩,
       ⟨0, 0, 2, true, ⟨[2, 1], 2, [20]⟩⟩,
       ⟨0, 0, 3, true, ⟨[2, 1], 3, [30]⟩⟩] []).2 ≠ [] := by
  decide

/-- C1 witness: the same three-key run yields an in-memory entry whose
counter value is `60`. -/
theorem accounting_read_journal_spec_witness :
    ∃ e, accounting_mem_find
        ((accounting_read_journal
          [⟨0, 0, 1, true, ⟨[2, 1], 1, [10]⟩⟩,
           ⟨0, 0, 2, true, ⟨[2, 1], 2, [20]⟩⟩,
           ⟨0, 0, 3, true, ⟨[2, 1], 3, [30]⟩⟩] []).1) [2, 1] = some e ∧
      e.v0 = [60] := by
  obtain ⟨⟨e, hfind, hv⟩, -⟩ :=
    accounting_read_journal_spec.2 0 0 [2, 1] 1 []
      [⟨0, 0, 1, true, ⟨[2, 1], 1, [10]⟩⟩,
       ⟨0, 0, 2, true, ⟨[2, 1], 2, [20]⟩⟩,
       ⟨0, 0, 3, true, ⟨[2, 1], 3, [30]⟩⟩]
      (by decide) (by decide) rfl
  exact ⟨e, hfind, by rw [hv]; decide⟩

end Bcachefs
